import Mathlib

/-!
Verification development for the hoboken-departures dashboard (`app.py`).

The file shallowly embeds the two feed normalizers of the program:

* `parse_path_realtime` — the PATH JSON normalizer (station filter, per-message
  minutes computation with ISO-timestamp preference and a regex fallback,
  window filter, last-seen-wins dedup, stable ascending sort by minutes);
* `parse_njt_mybus` — the NJT MyBus HTML-text normalizer (a hand-compiled,
  backtracking-faithful version of the Python regex
  `#(?P<route>\d+)\s+To\s+(?P<to>.+?)\s+(?P<eta>(?:<\s*1|DUE|\d+))\s*(?:MIN)?`
  over the extracted page text, then the same window/dedup/sort pipeline);

together with the per-panel driver structure (three independent
fetch-normalize-render passes, each wrapped in its own exception boundary).

Modelling conventions: Python dicts coming from the JSON feed are embedded as
structures with `Option` fields (`.get` returning `None` becomes `none`);
machine-independent `int` arithmetic is `Int`; the current UTC instant is a
parameter `now` in epoch seconds; `datetime.fromisoformat` is modelled for the
documented `YYYY-MM-DD'T'HH:MM:SS±HH:MM` aware form (a naive timestamp without
offset makes the aware-minus-naive subtraction in the source raise, which the
blanket `except` turns into a fallback, so such strings are mapped to `none`);
Python's stable `sorted` is `List.insertionSort`, which is stable; the
process-global `MAX_WINDOW_MIN` is threaded as a `window` parameter.
-/

namespace Hoboken

/-- Decide whether a character is an ASCII digit (regex class `\d`,
restricted to ASCII), written as an explicit disjunction so that case
analyses stay elementary. -/
def isDigitChar (c : Char) : Bool :=
  c = '0' || c = '1' || c = '2' || c = '3' || c = '4' ||
  c = '5' || c = '6' || c = '7' || c = '8' || c = '9'

/-- Whitespace recognised by Python's `str.strip` and the regex class `\s`,
restricted to ASCII. -/
def isPySpace (c : Char) : Bool :=
  c = ' ' || c = '\t' || c = '\n' || c = '\r' || c = '\x0b' || c = '\x0c'

/-- Numeric value of an ASCII digit character. -/
def digitVal (c : Char) : Nat := c.toNat - 48

/-- Value of a digit string, most significant digit first (Python `int` on an
all-digit string). -/
def digitsToNat (l : List Char) : Nat := l.foldl (fun acc c => acc * 10 + digitVal c) 0

/-- ASCII uppercase of one character (the effect of Python `str.upper` on the
characters that can appear in an ETA token). -/
def toUpperAscii (c : Char) : Char :=
  if 'a' ≤ c ∧ c ≤ 'z' then Char.ofNat (c.toNat - 32) else c

/-- Python `str.upper`, restricted to ASCII. -/
def pyUpper (l : List Char) : List Char := l.map toUpperAscii

/-- Python `str.strip`: drop whitespace from both ends. -/
def pyStrip (l : List Char) : List Char :=
  ((l.dropWhile isPySpace).reverse.dropWhile isPySpace).reverse

/-- Python `int(s)` as used on an ETA token: succeeds exactly on a nonempty
all-digit string (the only strings the scraper can feed it; signs, inner
whitespace or underscores never reach this call). -/
def parseIntPy (l : List Char) : Option Int :=
  if l ≠ [] ∧ l.all isDigitChar then some (Int.ofNat (digitsToNat l)) else none

/-- Gregorian leap-year test, as in Python's `datetime`. -/
def isLeapYear (y : Int) : Bool :=
  decide (y % 4 = 0 ∧ (¬y % 100 = 0 ∨ y % 400 = 0))

/-- Length of a month in the proleptic Gregorian calendar. -/
def daysInMonth (y m : Int) : Int :=
  if m = 2 then (if isLeapYear y then 29 else 28)
  else if m = 4 ∨ m = 6 ∨ m = 9 ∨ m = 11 then 30
  else 31

/-- Days from 1970-01-01 to the given proleptic Gregorian date (the standard
civil-from-days inverse used to give `datetime` a concrete epoch meaning). -/
def daysFromCivil (y m d : Int) : Int :=
  let y' := if m ≤ 2 then y - 1 else y
  let era := y'.fdiv 400
  let yoe := y' - era * 400
  let mp := (m + 9) % 12
  let doy := (153 * mp + 2).fdiv 5 + d - 1
  let doe := yoe * 365 + yoe.fdiv 4 - yoe.fdiv 100 + doy
  era * 146097 + doe - 719468

/-- Model of `datetime.fromisoformat` composed with the aware-datetime
subtraction in the source, returning epoch seconds.  It accepts the documented
`YYYY-MM-DD'T'HH:MM:SS±HH:MM` form with valid field ranges.  A string without
a UTC offset parses in Python to a naive datetime, whose subtraction from
`datetime.now(timezone.utc)` raises and is swallowed by the source's blanket
`except`, so offset-less (and otherwise malformed) strings map to `none`. -/
def pyFromIso (l : List Char) : Option Int :=
  match l with
  | [y1, y2, y3, y4, da, m1, m2, db, d1, d2, sep, h1, h2, ca, n1, n2, cb, s1, s2,
     sg, p1, p2, cc, p3, p4] =>
    if isDigitChar y1 = true ∧ isDigitChar y2 = true ∧ isDigitChar y3 = true ∧
       isDigitChar y4 = true ∧ da = '-' ∧ isDigitChar m1 = true ∧ isDigitChar m2 = true ∧
       db = '-' ∧ isDigitChar d1 = true ∧ isDigitChar d2 = true ∧ sep = 'T' ∧
       isDigitChar h1 = true ∧ isDigitChar h2 = true ∧ ca = ':' ∧
       isDigitChar n1 = true ∧ isDigitChar n2 = true ∧ cb = ':' ∧
       isDigitChar s1 = true ∧ isDigitChar s2 = true ∧ (sg = '+' ∨ sg = '-') ∧
       isDigitChar p1 = true ∧ isDigitChar p2 = true ∧ cc = ':' ∧
       isDigitChar p3 = true ∧ isDigitChar p4 = true then
      let year : Int := Int.ofNat (1000 * digitVal y1 + 100 * digitVal y2 + 10 * digitVal y3 + digitVal y4)
      let month : Int := Int.ofNat (10 * digitVal m1 + digitVal m2)
      let day : Int := Int.ofNat (10 * digitVal d1 + digitVal d2)
      let hour : Int := Int.ofNat (10 * digitVal h1 + digitVal h2)
      let minute : Int := Int.ofNat (10 * digitVal n1 + digitVal n2)
      let second : Int := Int.ofNat (10 * digitVal s1 + digitVal s2)
      let offh : Int := Int.ofNat (10 * digitVal p1 + digitVal p2)
      let offm : Int := Int.ofNat (10 * digitVal p3 + digitVal p4)
      if 1 ≤ year ∧ 1 ≤ month ∧ month ≤ 12 ∧ 1 ≤ day ∧ day ≤ daysInMonth year month ∧
         hour ≤ 23 ∧ minute ≤ 59 ∧ second ≤ 59 ∧ offh ≤ 23 ∧ offm ≤ 59 then
        some (daysFromCivil year month day * 86400 + hour * 3600 + minute * 60 + second -
          (offh * 3600 + offm * 60) * (if sg = '+' then 1 else -1))
      else none
    else none
  | _ => none

/-- The six characters Python's `str.replace` substitutes for each `Z`. -/
def plusZeroBlock : List Char := ['+', '0', '0', ':', '0', '0']

/-- Python `s.replace("Z", "+00:00")`: every occurrence of `Z` becomes
`+00:00` (for a one-character pattern this is a per-character expansion). -/
def replaceZChars : List Char → List Char
  | [] => []
  | c :: cs => (if c = 'Z' then plusZeroBlock else [c]) ++ replaceZChars cs

/-- Tolerating only a trailing literal `Z` as UTC offset, as the specification
words it: a final `Z` becomes `+00:00`, anything else is left alone. -/
def trailingZChars (l : List Char) : List Char :=
  match l.getLast? with
  | some c => if c = 'Z' then l.dropLast ++ plusZeroBlock else l
  | none => l

/-! ### The PATH feed data model (the shape `ridepath.json` is read with) -/

/-- One entry of a destination's `messages` list.  Each field is read in the
source with `dict.get`, so each is optional. -/
structure Msg where
  arrivalTime : Option String
  arrivalTimeMessage : Option String
  headSign : Option String
  lineName : Option String
  line : Option String
deriving Repr, DecidableEq

/-- One entry of a station's `destinations` list. -/
structure Dest where
  label : Option String
  messages : List Msg
deriving Repr, DecidableEq

/-- One entry of the top-level `results` list. -/
structure Station where
  consideredStation : Option String
  destinations : List Dest
deriving Repr, DecidableEq

/-- The decoded JSON document. -/
structure RidePath where
  results : List Station
deriving Repr, DecidableEq

/-- One normalized PATH row: the dict
`{"line": ..., "to": ..., "minutes": ..., "raw": msg}` built by the source. -/
structure PathRow where
  line : String
  toDest : String
  minutes : Int
  raw : Msg
deriving Repr, DecidableEq

/-- Python truthiness of an optional string: `None` and `""` are falsy. -/
def truthyStr : Option String → Option String
  | some s => if s = "" then none else some s
  | none => none

/-- Python `a or b or dflt` over two optional string fields. -/
def firstTruthy (a b : Option String) (dflt : String) : String :=
  match truthyStr a with
  | some s => s
  | none =>
    match truthyStr b with
    | some s => s
    | none => dflt

/-- Resolution `msg.get("headSign") or dest.get("label") or "PATH"`. -/
def resolveHeadsign (msg : Msg) (dest : Dest) : String :=
  firstTruthy msg.headSign dest.label ("PATH")

/-- Resolution `msg.get("lineName") or msg.get("line") or "PATH"`. -/
def resolveLine (msg : Msg) : String :=
  firstTruthy msg.lineName msg.line ("PATH")

/-- Leftmost match of the fallback regex `(\d+)\s*min` (case-insensitive),
returning the value of the digit group.  The scan tries successive start
positions; at a digit the group is the maximal digit run from there, which is
equivalent to the backtracking engine because a shortened digit run is
followed by a digit, matching neither `\s` nor `m`. -/
def searchNumMin : List Char → Option Nat
  | [] => none
  | c :: rest =>
    if isDigitChar c then
      let ds := List.takeWhile isDigitChar (c :: rest)
      let after := (List.dropWhile isDigitChar (c :: rest)).dropWhile isPySpace
      match after with
      | m :: i :: n :: _ =>
        if (m = 'm' ∨ m = 'M') ∧ (i = 'i' ∨ i = 'I') ∧ (n = 'n' ∨ n = 'N') then
          some (digitsToNat ds)
        else searchNumMin rest
      | _ => searchNumMin rest
    else searchNumMin rest

/-- Minutes from the `arrivalTime` branch of the source: replace every `Z` by
`+00:00`, parse as an aware ISO instant, subtract `now`, floor-divide the
seconds by 60 (Python `//`) and clamp negatives to zero.  `none` is the
swallowed exception of the `try` block. -/
def arrivalMinutesCode (now : Int) (iso : String) : Option Int :=
  match pyFromIso (replaceZChars iso.toList) with
  | some t => some (max 0 ((t - now).fdiv 60))
  | none => none

/-- Fallback branch: first integer immediately preceding `min` in
`str(msg.get("arrivalTimeMessage", ""))`. -/
def fallbackMinutes (msg : Msg) : Option Int :=
  (searchNumMin (msg.arrivalTimeMessage.getD ("")).toList).map Int.ofNat

/-- Per-message minutes computation of the source: try the truthy
`arrivalTime` first, then the `arrivalTimeMessage` regex, else `None`. -/
def msgMinutes (now : Int) (msg : Msg) : Option Int :=
  let viaIso :=
    match truthyStr msg.arrivalTime with
    | some iso => arrivalMinutesCode now iso
    | none => none
  match viaIso with
  | some m => some m
  | none => fallbackMinutes msg

/-- The loop body of `parse_path_realtime` for one message: compute minutes,
drop the message if none, append a row if `0 <= minutes <= MAX_WINDOW_MIN`. -/
def rowOfMsg (window now : Int) (dest : Dest) (msg : Msg) : Option PathRow :=
  match msgMinutes now msg with
  | none => none
  | some m =>
    if 0 ≤ m ∧ m ≤ window then
      some { line := resolveLine msg, toDest := resolveHeadsign msg dest, minutes := m, raw := msg }
    else none

/-- The `rows` list accumulated by the nested loops of `parse_path_realtime`
before dedup and sort: stations with `consideredStation = "HOB"`, all their
destinations, all their messages, in order. -/
def pathRowsRaw (window now : Int) (data : RidePath) : List PathRow :=
  (data.results.filter (fun st => decide (st.consideredStation = some ("HOB")))).flatMap
    (fun st => st.destinations.flatMap
      (fun dest => dest.messages.filterMap (rowOfMsg window now dest)))

/-- The uniqueness key `(r["line"], r["to"], r["minutes"])`. -/
def pathKey (r : PathRow) : String × String × Int := (r.line, r.toDest, r.minutes)

/-- One step of building a Python dict keyed by `k`: a repeated key replaces
the stored value in place (dict update keeps the first-insertion position),
a new key is appended. -/
def upsertRow {α κ : Type} [DecidableEq κ] (k : α → κ) (acc : List α) (r : α) : List α :=
  if acc.any (fun x => decide (k x = k r)) then
    acc.map (fun x => if k x = k r then r else x)
  else acc ++ [r]

/-- The dict comprehension `{key(r): r for r in rows}` followed by
`.values()`: unique by key, last occurrence wins, first-insertion order. -/
def dedupLastWins {α κ : Type} [DecidableEq κ] (k : α → κ) (rows : List α) : List α :=
  rows.foldl (upsertRow k) []

/-- The full PATH normalizer `parse_path_realtime` (the fetch is replaced by
the decoded document, the process-global window and the current UTC instant
are parameters).  Python's `sorted` is stable, as is `List.insertionSort`. -/
def parse_path_realtime (window now : Int) (data : RidePath) : List PathRow :=
  List.insertionSort (fun a b => a.minutes ≤ b.minutes)
    (dedupLastWins pathKey (pathRowsRaw window now data))

/-! ### The NJT MyBus scraper

The Python pattern is
`#(?P<route>\d+)\s+To\s+(?P<to>.+?)\s+(?P<eta>(?:<\s*1|DUE|\d+))\s*(?:MIN)?`
with `re.IGNORECASE`, run with `finditer` over the page text.  It is compiled
here by hand with the engine's exploration order made explicit.  The only
choice points that can genuinely backtrack are the `\s+` before the
non-greedy destination group (greedy, so tried from the longest run down) and
the destination group itself (non-greedy, so tried from one character up);
every other quantifier is forced: a shortened `\d+` or `\s+` run leaves a
digit or a whitespace character where the next atom requires the opposite
class, and the atoms of the `eta` alternation start with the pairwise
distinct character classes `<`, `d/D` and digits. -/

/-- Trailing `\s*(?:MIN)?` of the pattern: skip whitespace greedily, then
consume a case-insensitive `MIN` if present (shrinking `\s*` cannot enable
`MIN`, since a whitespace character never matches `M`). -/
def finishTrailing (r : List Char) : List Char :=
  match r.dropWhile isPySpace with
  | m :: i :: n :: rest =>
    if (m = 'm' ∨ m = 'M') ∧ (i = 'i' ∨ i = 'I') ∧ (n = 'n' ∨ n = 'N') then rest
    else m :: i :: n :: rest
  | r4 => r4

/-- The `eta` alternation `(?:<\s*1|DUE|\d+)` at the current position,
returning the text of the group and the rest of the input.  Alternatives are
tried in order; their leading character classes are disjoint. -/
def etaAt : List Char → Option (List Char × List Char)
  | [] => none
  | c :: rest =>
    if c = '<' then
      match rest.dropWhile isPySpace with
      | '1' :: r3 => some ('<' :: (rest.takeWhile isPySpace ++ ['1']), r3)
      | _ => none
    else if (c = 'd' ∨ c = 'D') then
      match rest with
      | u :: e :: r3 =>
        if (u = 'u' ∨ u = 'U') ∧ (e = 'e' ∨ e = 'E') then some ([c, u, e], r3) else none
      | _ => none
    else if isDigitChar c then
      some ((c :: rest).takeWhile isDigitChar, (c :: rest).dropWhile isDigitChar)
    else none

/-- The pattern tail `\s+(?P<eta>...)\s*(?:MIN)?` after a candidate
destination group.  The `\s+` here cannot backtrack: every `eta` alternative
starts with a non-whitespace character. -/
def tryTail (afterTo : List Char) : Option (List Char × List Char) :=
  if (afterTo.takeWhile isPySpace) = [] then none
  else
    match etaAt (afterTo.dropWhile isPySpace) with
    | some (eta, r3) => some (eta, finishTrailing r3)
    | none => none

/-- Non-greedy expansion of the destination group `(?P<to>.+?)`: starting at
`toLen` and trying at most `n` further lengths, return the first length whose
tail matches.  `.` does not match a newline, so the caller bounds the
expansion by the distance to the next newline. -/
def tryToFrom (afterWs : List Char) : Nat → Nat → Option (List Char × List Char × List Char)
  | 0, _ => none
  | n + 1, toLen =>
    match tryTail (afterWs.drop toLen) with
    | some (eta, rem) => some (afterWs.take toLen, eta, rem)
    | none => tryToFrom afterWs n (toLen + 1)

/-- Greedy exploration of the `\s+` run before the destination group: try
lengths `a, a-1, ..., 1` of consumed whitespace (the caller starts at the
length of the whole run; positions past `a` whitespace characters are
whitespace, which `.` can still match, so shorter runs are genuine
alternatives the engine visits after longer ones fail). -/
def tryWs1 (s : List Char) : Nat → Option (List Char × List Char × List Char)
  | 0 => none
  | a + 1 =>
    match tryToFrom (s.drop (a + 1))
        (((s.drop (a + 1)).takeWhile (fun c => decide (c ≠ '\n'))).length) 1 with
    | some r => some r
    | none => tryWs1 s a

/-- One match attempt anchored at the start of `l`: `#`, the route digits,
`\s+`, case-insensitive `To`, then the middle and tail of the pattern.
Returns the three named groups and the remainder of the text after the
match. -/
def matchAt (l : List Char) : Option (List Char × List Char × List Char × List Char) :=
  match l with
  | '#' :: l1 =>
    if l1.takeWhile isDigitChar = [] then none
    else
      if ((l1.dropWhile isDigitChar).takeWhile isPySpace) = [] then none
      else
        match (l1.dropWhile isDigitChar).dropWhile isPySpace with
        | t :: o :: l4 =>
          if (t = 'T' ∨ t = 't') ∧ (o = 'O' ∨ o = 'o') then
            match tryWs1 l4 ((l4.takeWhile isPySpace).length) with
            | some (toG, eta, rem) => some (l1.takeWhile isDigitChar, toG, eta, rem)
            | none => none
          else none
        | _ => none
  | _ => none

/-- The scan of `finditer`: try a match at every position, left to right, and
resume after the end of each match (matches never overlap).  The fuel
argument is the length of the text, which suffices because every successful
match consumes at least one character (`matchAt_rem_lt` below). -/
def findMatchesFuel : Nat → List Char → List (List Char × List Char × List Char)
  | 0, _ => []
  | _ + 1, [] => []
  | fuel + 1, c :: rest =>
    match matchAt (c :: rest) with
    | some (r, t, e, rem) => (r, t, e) :: findMatchesFuel fuel rem
    | none => findMatchesFuel fuel rest

/-- All matches of the pattern over a text. -/
def findMatches (l : List Char) : List (List Char × List Char × List Char) :=
  findMatchesFuel l.length l

/-- One normalized bus row `{"route": ..., "to": ..., "minutes": ...}`. -/
structure BusRow where
  route : String
  toDest : String
  minutes : Int
deriving Repr, DecidableEq

/-- Conversion of the stripped, uppercased ETA token to minutes: `DUE` and
tokens beginning with `<` mean zero, otherwise `int(eta_raw)`; `none` is the
`ValueError` branch that `continue`s past the match. -/
def etaMinutes (etaGroup : List Char) : Option Int :=
  let etaRaw := pyUpper (pyStrip etaGroup)
  if etaRaw = ("DUE").toList ∨ etaRaw.head? = some '<' then some 0
  else parseIntPy etaRaw

/-- The loop body of `parse_njt_mybus` for one match: strip the groups,
convert the ETA token, skip the match on conversion failure, keep the row iff
`0 <= minutes <= MAX_WINDOW_MIN`. -/
def busRowOfMatch (window : Int) (m : List Char × List Char × List Char) : Option BusRow :=
  match etaMinutes m.2.2 with
  | none => none
  | some minutes =>
    if 0 ≤ minutes ∧ minutes ≤ window then
      some { route := String.mk (pyStrip m.1), toDest := String.mk (pyStrip m.2.1),
             minutes := minutes }
    else none

/-- The uniqueness key `(r["route"], r["to"], r["minutes"])`. -/
def busKey (r : BusRow) : String × String × Int := (r.route, r.toDest, r.minutes)

/-- The `out` list of `parse_njt_mybus` before dedup and sort. -/
def busRowsRaw (window : Int) (text : String) : List BusRow :=
  (findMatches text.toList).filterMap (busRowOfMatch window)

/-- The full bus normalizer `parse_njt_mybus`, starting from the visible text
extracted from the fetched page (the fetch and the BeautifulSoup text
extraction are the input here), with the process-global window a parameter. -/
def parse_njt_mybus (window : Int) (text : String) : List BusRow :=
  List.insertionSort (fun a b => a.minutes ≤ b.minutes)
    (dedupLastWins busKey (busRowsRaw window text))

/-! ### The driver: three panels, each with its own exception boundary

A fetch-normalize pipeline either returns rows or raises; the raising side of
the Feed Client is modelled by `Except String`, the per-panel `try/except` of
the driver by `renderPanel`. -/

/-- What one panel shows after its `try/except` block: rendered rows, the
neutral `st.info` notice for an empty list, or the `st.error` message. -/
inductive PanelView (α : Type) where
  | rows : List α → PanelView α
  | emptyNotice : PanelView α
  | failure : String → PanelView α
deriving Repr, DecidableEq

/-- The body of one `try`/`except Exception` block around
fetch-normalize-render: a raised exception becomes that panel's error
display, an empty list the neutral notice. -/
def renderPanel {α : Type} (result : Except String (List α)) : PanelView α :=
  match result with
  | Except.error e => PanelView.failure e
  | Except.ok [] => PanelView.emptyNotice
  | Except.ok rows => PanelView.rows rows

/-- The bus pipeline from the fetch result: a transport failure propagates
out of `_get_html` untouched, a fetched text is normalized. -/
def busPipeline (window : Int) (fetched : Except String String) :
    Except String (List BusRow) :=
  fetched.map (parse_njt_mybus window)

/-- The PATH pipeline from the fetch result. -/
def pathPipeline (window now : Int) (fetched : Except String RidePath) :
    Except String (List PathRow) :=
  fetched.map (parse_path_realtime window now)

/-- One refresh cycle of the driver: the three panels run independently and
sequentially, each behind its own boundary (source lines 218-243). -/
def runCycle (window now : Int) (pathFetch : Except String RidePath)
    (bus1 bus2 : Except String String) :
    PanelView PathRow × PanelView BusRow × PanelView BusRow :=
  (renderPanel (pathPipeline window now pathFetch),
   renderPanel (busPipeline window bus1),
   renderPanel (busPipeline window bus2))

/-! ### The PATH normalizer transcribed from the specification's words

This second pipeline is written from the specification (section 4.2), to be
proved equal to the embedding of the source: an absent timestamp or one that
fails to parse as an ISO-8601 instant — tolerating a trailing literal `Z` as
UTC offset — falls back to the `arrivalTimeMessage` regex; subtraction from
the current instant is floored to whole minutes with negatives clamped to
zero; a message yielding no minutes is dropped without affecting the others.
The one difference from the source is the treatment of `Z`: the source
replaces every occurrence, the specification tolerates a trailing one. -/

/-- Minutes from the timestamp per the specification's words. -/
def arrivalMinutesSpec (now : Int) (iso : String) : Option Int :=
  match pyFromIso (trailingZChars iso.toList) with
  | some t => some (max 0 ((t - now).fdiv 60))
  | none => none

/-- Per-message minutes per the specification: prefer the timestamp, fall
back on absence or parse failure. -/
def msgMinutesSpec (now : Int) (msg : Msg) : Option Int :=
  match msg.arrivalTime with
  | some iso =>
    match arrivalMinutesSpec now iso with
    | some m => some m
    | none => fallbackMinutes msg
  | none => fallbackMinutes msg

/-- Per-message row per the specification (window kept inclusive). -/
def rowOfMsgSpec (window now : Int) (dest : Dest) (msg : Msg) : Option PathRow :=
  match msgMinutesSpec now msg with
  | none => none
  | some m =>
    if 0 ≤ m ∧ m ≤ window then
      some { line := resolveLine msg, toDest := resolveHeadsign msg dest, minutes := m,
             raw := msg }
    else none

/-- The row list per the specification, dropped messages contributing
nothing. -/
def pathRowsSpec (window now : Int) (data : RidePath) : List PathRow :=
  (data.results.filter (fun st => decide (st.consideredStation = some ("HOB")))).flatMap
    (fun st => st.destinations.flatMap
      (fun dest => dest.messages.filterMap (rowOfMsgSpec window now dest)))

/-- The whole normalizer per the specification's words. -/
def pathNormalizeSpec (window now : Int) (data : RidePath) : List PathRow :=
  List.insertionSort (fun a b => a.minutes ≤ b.minutes)
    (dedupLastWins pathKey (pathRowsSpec window now data))

/-! ### Concrete fixtures used by the claim theorems -/

/-- Round-trip fixture: one message whose only ETA field is a Z-suffixed
timestamp 300 seconds after the epoch instant taken as `now`. -/
def c1Msg : Msg :=
  { arrivalTime := some ("1970-01-01T00:05:00Z"), arrivalTimeMessage := none,
    headSign := none, lineName := none, line := none }

/-- Round-trip fixture: one `HOB` station, one destination labeled
`33rd Street`, one message. -/
def c1Doc : RidePath :=
  { results := [{ consideredStation := some ("HOB"),
                  destinations := [{ label := some ("33rd Street"),
                                     messages := [c1Msg] }] }] }

/-- The first HTML-extraction fragment of the specification. -/
def c2TextNY : String := "#126 To 126 NEW YORK 13 MIN"

/-- The second HTML-extraction fragment of the specification. -/
def c2TextDue : String := "#22 To 22 HOBOKEN DUE"

/-- The third HTML-extraction fragment of the specification. -/
def c2TextLt : String := "#126 To 126 HOBOKEN-PATH < 1 MIN"

/-- A page text computing a row of 45 minutes. -/
def c4BusText45 : String := "#9 To NEWARK 45 MIN"

/-- A document computing a PATH row of 45 minutes via the fallback phrase. -/
def c4PathDoc45 : RidePath :=
  { results := [{ consideredStation := some ("HOB"),
                  destinations := [{ label := some ("33rd Street"),
                                     messages := [{ arrivalTime := none,
                                                    arrivalTimeMessage := some ("45 min"),
                                                    headSign := none, lineName := none,
                                                    line := none }] }] }] }

/-- A page text computing an in-window row, for the window witness. -/
def c4WitText : String := "#5 To X 7 MIN"

/-- A document computing an in-window PATH row, for the window witness. -/
def c4WitMsg : Msg :=
  { arrivalTime := none, arrivalTimeMessage := some ("7 min"),
    headSign := none, lineName := none, line := none }

/-- The document around `c4WitMsg`. -/
def c4WitDoc : RidePath :=
  { results := [{ consideredStation := some ("HOB"),
                  destinations := [{ label := some ("33rd Street"),
                                     messages := [c4WitMsg] }] }] }

/-- First of two messages that collide on the uniqueness key. -/
def c5Msg1 : Msg :=
  { arrivalTime := none, arrivalTimeMessage := some ("5 min"),
    headSign := none, lineName := none, line := none }

/-- Second colliding message: same key, different raw payload. -/
def c5Msg2 : Msg :=
  { arrivalTime := none, arrivalTimeMessage := some ("approx 5 min"),
    headSign := none, lineName := none, line := none }

/-- A document whose two messages produce rows with equal keys. -/
def c5Doc : RidePath :=
  { results := [{ consideredStation := some ("HOB"),
                  destinations := [{ label := some ("33rd Street"),
                                     messages := [c5Msg1, c5Msg2] }] }] }

/-- The surviving PATH row: the key of both colliding rows, the raw message
of the last one. -/
def c5Row : PathRow :=
  { line := "PATH", toDest := "33rd Street", minutes := 5, raw := c5Msg2 }

/-- A page text whose pattern matches twice with identical groups. -/
def c5BusText : String := "#126 To 126 NEW YORK 13 MIN #126 To 126 NEW YORK 13 MIN"

/-- The single row the duplicate matches collapse to. -/
def c5BusRow : BusRow := { route := "126", toDest := "126 NEW YORK", minutes := 13 }

/-- A fetched page with no pattern match at all. -/
def c7Text : String := "No buses are currently scheduled for this stop."

/-- A page text for the ETA-totality witness. -/
def c9Text : String := "#80 To LINCOLN DUE"

/-! ### Properties of the ISO parser: the replace-all-Z of the source agrees
with the trailing-Z tolerance the specification describes -/

theorem digit_char_facts {c : Char} (h : isDigitChar c = true) :
    c ≠ 'Z' ∧ c ≠ '+' := by
  simp [isDigitChar] at h
  rcases h with ((((((((rfl | rfl) | rfl) | rfl) | rfl) | rfl) | rfl) | rfl) | rfl) | rfl <;>
    decide

theorem pyFromIso_shape {m : List Char} {v : Int} (h : pyFromIso m = some v) :
    ∃ y1 y2 y3 y4 m1 m2 d1 d2 h1 h2 n1 n2 s1 s2 sg p1 p2 p3 p4,
      m = [y1, y2, y3, y4, '-', m1, m2, '-', d1, d2, 'T', h1, h2, ':', n1, n2, ':', s1, s2,
           sg, p1, p2, ':', p3, p4] ∧
      isDigitChar y1 = true ∧ isDigitChar y2 = true ∧ isDigitChar y3 = true ∧
      isDigitChar y4 = true ∧ isDigitChar m1 = true ∧ isDigitChar m2 = true ∧
      isDigitChar d1 = true ∧ isDigitChar d2 = true ∧
      isDigitChar h1 = true ∧ isDigitChar h2 = true ∧
      isDigitChar n1 = true ∧ isDigitChar n2 = true ∧
      isDigitChar s1 = true ∧ isDigitChar s2 = true ∧ (sg = '+' ∨ sg = '-') ∧
      isDigitChar p1 = true ∧ isDigitChar p2 = true ∧
      isDigitChar p3 = true ∧ isDigitChar p4 = true := by
  unfold pyFromIso at h
  split at h
  · rename_i y1 y2 y3 y4 da m1 m2 db d1 d2 sep h1 h2 ca n1 n2 cb s1 s2 sg p1 p2 cc p3 p4
    split at h
    · rename_i hcond
      obtain ⟨hy1, hy2, hy3, hy4, rfl, hm1, hm2, rfl, hd1, hd2, rfl, hh1, hh2, rfl,
        hn1, hn2, rfl, hs1, hs2, hsg, hp1, hp2, rfl, hp3, hp4⟩ := hcond
      exact ⟨y1, y2, y3, y4, m1, m2, d1, d2, h1, h2, n1, n2, s1, s2, sg, p1, p2, p3, p4,
        rfl, hy1, hy2, hy3, hy4, hm1, hm2, hd1, hd2, hh1, hh2, hn1, hn2, hs1, hs2, hsg,
        hp1, hp2, hp3, hp4⟩
    · exact absurd h (by simp)
  · exact absurd h (by simp)

theorem digit_eq_Z_false {c : Char} (h : isDigitChar c = true) : ('Z' = c) = False :=
  eq_false fun he => (digit_char_facts h).1 he.symm

theorem digit_eq_plus_false {c : Char} (h : isDigitChar c = true) : ('+' = c) = False :=
  eq_false fun he => (digit_char_facts h).2 he.symm

theorem pyFromIso_no_Z {m : List Char} {v : Int} (h : pyFromIso m = some v) : 'Z' ∉ m := by
  obtain ⟨y1, y2, y3, y4, m1, m2, d1, d2, h1, h2, n1, n2, s1, s2, sg, p1, p2, p3, p4,
    rfl, hy1, hy2, hy3, hy4, hm1, hm2, hd1, hd2, hh1, hh2, hn1, hn2, hs1, hs2, hsg,
    hp1, hp2, hp3, hp4⟩ := pyFromIso_shape h
  intro hmem
  rcases hsg with rfl | rfl <;>
    simp only [List.mem_cons, List.not_mem_nil, or_false,
      digit_eq_Z_false hy1, digit_eq_Z_false hy2, digit_eq_Z_false hy3, digit_eq_Z_false hy4,
      digit_eq_Z_false hm1, digit_eq_Z_false hm2, digit_eq_Z_false hd1, digit_eq_Z_false hd2,
      digit_eq_Z_false hh1, digit_eq_Z_false hh2, digit_eq_Z_false hn1, digit_eq_Z_false hn2,
      digit_eq_Z_false hs1, digit_eq_Z_false hs2, digit_eq_Z_false hp1, digit_eq_Z_false hp2,
      digit_eq_Z_false hp3, digit_eq_Z_false hp4,
      show ('Z' = '-') = False by decide, show ('Z' = 'T') = False by decide,
      show ('Z' = ':') = False by decide, show ('Z' = '+') = False by decide,
      or_self] at hmem

theorem le_first_occ {c : Char} :
    ∀ (as xs ys bs : List Char), xs ++ c :: ys = as ++ c :: bs → c ∉ as →
      as.length ≤ xs.length := by
  intro as
  induction as with
  | nil => intro xs ys bs _ _; exact Nat.zero_le _
  | cons a as ih =>
    intro xs ys bs h hnot
    match xs with
    | [] =>
      simp only [List.nil_append, List.cons_append, List.cons.injEq] at h
      exact absurd (h.1 ▸ List.mem_cons_self a as) hnot
    | x :: xs' =>
      simp only [List.cons_append, List.cons.injEq] at h
      have := ih xs' ys bs h.2 (fun hc => hnot (List.mem_cons_of_mem a hc))
      simpa using Nat.succ_le_succ this

theorem pyFromIso_plus_suffix {m : List Char} {v : Int} (h : pyFromIso m = some v) :
    ∀ a b, '+' ∉ a → m = a ++ '+' :: b → b.length = 5 := by
  obtain ⟨y1, y2, y3, y4, m1, m2, d1, d2, h1, h2, n1, n2, s1, s2, sg, p1, p2, p3, p4,
    rfl, hy1, hy2, hy3, hy4, hm1, hm2, hd1, hd2, hh1, hh2, hn1, hn2, hs1, hs2, hsg,
    hp1, hp2, hp3, hp4⟩ := pyFromIso_shape h
  intro a b hna hm
  rcases hsg with rfl | rfl
  · -- the sign is the unique '+': pin down the split position
    have hpre : '+' ∉ [y1, y2, y3, y4, '-', m1, m2, '-', d1, d2, 'T', h1, h2, ':',
        n1, n2, ':', s1, s2] := by
      intro hmem
      simp only [List.mem_cons, List.not_mem_nil, or_false,
        digit_eq_plus_false hy1, digit_eq_plus_false hy2, digit_eq_plus_false hy3,
        digit_eq_plus_false hy4, digit_eq_plus_false hm1, digit_eq_plus_false hm2,
        digit_eq_plus_false hd1, digit_eq_plus_false hd2, digit_eq_plus_false hh1,
        digit_eq_plus_false hh2, digit_eq_plus_false hn1, digit_eq_plus_false hn2,
        digit_eq_plus_false hs1, digit_eq_plus_false hs2,
        show ('+' = '-') = False by decide, show ('+' = 'T') = False by decide,
        show ('+' = ':') = False by decide, or_self] at hmem
    have hm' : a ++ '+' :: b =
        [y1, y2, y3, y4, '-', m1, m2, '-', d1, d2, 'T', h1, h2, ':', n1, n2, ':', s1, s2] ++
          '+' :: [p1, p2, ':', p3, p4] := by simpa using hm.symm
    have hle1 : a.length ≤ 19 :=
      le_first_occ a _ _ _ hm'.symm hna
    have hle2 : (19 : Nat) ≤ a.length := by
      simpa using le_first_occ _ a b _ hm' hpre
    have hlen : a.length =
        ([y1, y2, y3, y4, '-', m1, m2, '-', d1, d2, 'T', h1, h2, ':', n1, n2, ':', s1,
          s2] : List Char).length := by
      simp; omega
    obtain ⟨-, htl⟩ := List.append_inj hm' hlen
    have : '+' :: b = '+' :: [p1, p2, ':', p3, p4] := htl
    simp [List.cons.injEq] at this
    simp [this]
  · -- no '+' occurs at all, contradicting the exhibited occurrence
    have : '+' ∈ a ++ '+' :: b := List.mem_append_right a (List.mem_cons_self _ _)
    rw [← hm] at this
    simp only [List.mem_cons, List.not_mem_nil, or_false,
      digit_eq_plus_false hy1, digit_eq_plus_false hy2, digit_eq_plus_false hy3,
      digit_eq_plus_false hy4, digit_eq_plus_false hm1, digit_eq_plus_false hm2,
      digit_eq_plus_false hd1, digit_eq_plus_false hd2, digit_eq_plus_false hh1,
      digit_eq_plus_false hh2, digit_eq_plus_false hn1, digit_eq_plus_false hn2,
      digit_eq_plus_false hs1, digit_eq_plus_false hs2,
      digit_eq_plus_false hp1, digit_eq_plus_false hp2,
      digit_eq_plus_false hp3, digit_eq_plus_false hp4,
      show ('+' = '-') = False by decide, show ('+' = 'T') = False by decide,
      show ('+' = ':') = False by decide, or_self] at this




theorem pyFromIso_none_of_Z {m : List Char} (h : 'Z' ∈ m) : pyFromIso m = none := by
  cases hv : pyFromIso m with
  | none => rfl
  | some v => exact absurd h (pyFromIso_no_Z hv)

theorem first_occ_split {c : Char} {l : List Char} (h : c ∈ l) :
    ∃ α β, l = α ++ c :: β ∧ c ∉ α := by
  induction l with
  | nil => cases h
  | cons a l ih =>
    by_cases hc : c = a
    · exact ⟨[], l, by simp [hc], by simp⟩
    · have hm : c ∈ l := by
        rcases List.mem_cons.mp h with h' | h'
        · exact absurd h' hc
        · exact h'
      obtain ⟨α, β, rfl, hα⟩ := ih hm
      exact ⟨a :: α, β, by simp, by simp [hα, hc]⟩

theorem pyFromIso_none_of_long_plus_suffix {p γ : List Char} (h : 6 ≤ γ.length) :
    pyFromIso (p ++ '+' :: γ) = none := by
  cases hv : pyFromIso (p ++ '+' :: γ) with
  | none => rfl
  | some v =>
    have hplus : '+' ∈ p ++ '+' :: γ := List.mem_append_right p (List.mem_cons_self _ _)
    obtain ⟨α, β, heq, hα⟩ := first_occ_split hplus
    have hβ : β.length = 5 := pyFromIso_plus_suffix hv α β hα heq
    have hle : α.length ≤ p.length := le_first_occ α p γ β heq hα
    have hlen := congrArg List.length heq
    simp at hlen
    omega

theorem replaceZ_append (a b : List Char) :
    replaceZChars (a ++ b) = replaceZChars a ++ replaceZChars b := by
  induction a with
  | nil => simp [replaceZChars]
  | cons c cs ih => simp [replaceZChars, ih]

theorem replaceZ_of_not_mem {l : List Char} (h : 'Z' ∉ l) : replaceZChars l = l := by
  induction l with
  | nil => rfl
  | cons c cs ih =>
    have hc : ¬c = 'Z' := fun hc => h (hc ▸ List.mem_cons_self c cs)
    have hcs : 'Z' ∉ cs := fun hm => h (List.mem_cons_of_mem c hm)
    simp [replaceZChars, hc, ih hcs]

theorem replaceZ_eq_nil {l : List Char} (h : replaceZChars l = []) : l = [] := by
  cases l with
  | nil => rfl
  | cons c cs =>
    by_cases hc : c = 'Z' <;> simp [replaceZChars, hc, plusZeroBlock] at h

theorem trailingZ_of_not_mem {l : List Char} (h : 'Z' ∉ l) : trailingZChars l = l := by
  unfold trailingZChars
  cases hlast : l.getLast? with
  | none => rfl
  | some c =>
    have hc : ¬c = 'Z' := by
      intro hcz
      obtain ⟨l', rfl⟩ := List.getLast?_eq_some_iff.mp hlast
      exact h (hcz ▸ List.mem_append_right l' (List.mem_cons_self c []))
    simp [hc]

theorem trailingZ_concat_Z (l : List Char) :
    trailingZChars (l ++ ['Z']) = l ++ plusZeroBlock := by
  unfold trailingZChars
  rw [List.getLast?_concat]
  simp [List.dropLast_concat]

theorem pyFromIso_replaceZ_eq_trailingZ (l : List Char) :
    pyFromIso (replaceZChars l) = pyFromIso (trailingZChars l) := by
  by_cases hz : 'Z' ∈ l
  · cases hlast : l.getLast? with
    | none =>
      rw [List.getLast?_eq_none_iff] at hlast
      subst hlast; cases hz
    | some c =>
      by_cases hcz : c = 'Z'
      · subst hcz
        obtain ⟨l', rfl⟩ := List.getLast?_eq_some_iff.mp hlast
        rw [trailingZ_concat_Z]
        by_cases hz' : 'Z' ∈ l'
        · -- interior Z besides the trailing one: both sides fail to parse
          obtain ⟨p, q, rfl, hp⟩ := first_occ_split hz'
          have hrhs : pyFromIso ((p ++ 'Z' :: q) ++ plusZeroBlock) = none := by
            apply pyFromIso_none_of_Z
            exact List.mem_append_left _ (List.mem_append_right _ (List.mem_cons_self _ _))
          have hlhs :
              pyFromIso (replaceZChars ((p ++ 'Z' :: q) ++ ['Z'])) = none := by
            have harr : replaceZChars ((p ++ 'Z' :: q) ++ ['Z']) =
                p ++ '+' :: (['0', '0', ':', '0', '0'] ++
                  (replaceZChars q ++ plusZeroBlock)) := by
              rw [replaceZ_append, replaceZ_append, replaceZ_of_not_mem hp]
              simp [replaceZChars, plusZeroBlock]
            rw [harr]
            apply pyFromIso_none_of_long_plus_suffix
            simp [plusZeroBlock]
          rw [hlhs, hrhs]
        · -- only the trailing Z: both sides are literally the same string
          rw [replaceZ_append, replaceZ_of_not_mem hz']
          simp [replaceZChars, plusZeroBlock]
      · -- Z occurs but not at the end: both sides fail to parse
        have hrhs : trailingZChars l = l := by
          unfold trailingZChars
          rw [hlast]
          simp [hcz]
        rw [hrhs, pyFromIso_none_of_Z hz]
        obtain ⟨p, q, rfl, hp⟩ := first_occ_split hz
        have hq : q ≠ [] := by
          intro hqe
          subst hqe
          rw [List.getLast?_concat] at hlast
          exact hcz (Option.some.inj hlast).symm
        have harr : replaceZChars (p ++ 'Z' :: q) =
            p ++ '+' :: (['0', '0', ':', '0', '0'] ++ replaceZChars q) := by
          rw [replaceZ_append, replaceZ_of_not_mem hp]
          simp [replaceZChars, plusZeroBlock]
        rw [harr]
        apply pyFromIso_none_of_long_plus_suffix
        have : replaceZChars q ≠ [] := fun he => hq (replaceZ_eq_nil he)
        have : 1 ≤ (replaceZChars q).length := by
          cases hrep : replaceZChars q with
          | nil => exact absurd hrep this
          | cons _ _ => simp
        simp
        omega
  · rw [replaceZ_of_not_mem hz, trailingZ_of_not_mem hz]

/-! ### The source pipeline equals the specification's transcription -/

theorem msgMinutes_eq_spec (now : Int) (msg : Msg) :
    msgMinutes now msg = msgMinutesSpec now msg := by
  unfold msgMinutes msgMinutesSpec
  cases harr : msg.arrivalTime with
  | none => rfl
  | some s =>
    by_cases hs : s = ""
    · subst hs
      simp [truthyStr, arrivalMinutesSpec, trailingZChars, pyFromIso]
    · have ht : truthyStr (some s) = some s := by simp [truthyStr, hs]
      rw [ht]
      simp only [arrivalMinutesCode, arrivalMinutesSpec, pyFromIso_replaceZ_eq_trailingZ]

theorem rowOfMsg_eq_spec (window now : Int) (dest : Dest) (msg : Msg) :
    rowOfMsg window now dest msg = rowOfMsgSpec window now dest msg := by
  unfold rowOfMsg rowOfMsgSpec
  rw [msgMinutes_eq_spec]

theorem pathRowsRaw_eq_spec (window now : Int) (data : RidePath) :
    pathRowsRaw window now data = pathRowsSpec window now data := by
  unfold pathRowsRaw pathRowsSpec
  have h : rowOfMsg window now = rowOfMsgSpec window now := by
    funext dest msg
    exact rowOfMsg_eq_spec window now dest msg
  rw [h]

/-! ### Properties of the dict-based dedup and of the stable sort -/

theorem mem_upsertRow {α κ : Type} [DecidableEq κ] (k : α → κ) (acc : List α) (r x : α)
    (h : x ∈ upsertRow k acc r) : x = r ∨ (x ∈ acc ∧ ¬k x = k r) := by
  unfold upsertRow at h
  split at h
  · obtain ⟨y, hy, hxy⟩ := List.mem_map.mp h
    by_cases hk : k y = k r
    · rw [if_pos hk] at hxy
      exact Or.inl hxy.symm
    · rw [if_neg hk] at hxy
      subst hxy
      exact Or.inr ⟨hy, hk⟩
  · rename_i hany
    rcases List.mem_append.mp h with h' | h'
    · refine Or.inr ⟨h', fun hk => ?_⟩
      exact hany (List.any_eq_true.mpr ⟨x, h', by simp [hk]⟩)
    · exact Or.inl (by simpa using h')

theorem mem_foldl_upsertRow {α κ : Type} [DecidableEq κ] (k : α → κ) :
    ∀ (rows acc : List α) (x : α), x ∈ rows.foldl (upsertRow k) acc → x ∈ acc ∨ x ∈ rows := by
  intro rows
  induction rows with
  | nil => intro acc x h; exact Or.inl h
  | cons r rest ih =>
    intro acc x h
    rcases ih (upsertRow k acc r) x h with h' | h'
    · rcases mem_upsertRow k acc r x h' with rfl | ⟨h'', -⟩
      · exact Or.inr (List.mem_cons_self _ _)
      · exact Or.inl h''
    · exact Or.inr (List.mem_cons_of_mem r h')

theorem mem_dedupLastWins {α κ : Type} [DecidableEq κ] (k : α → κ) (rows : List α) (x : α)
    (h : x ∈ dedupLastWins k rows) : x ∈ rows := by
  rcases mem_foldl_upsertRow k rows [] x h with h' | h'
  · cases h'
  · exact h'

theorem pairwise_upsertRow {α κ : Type} [DecidableEq κ] (k : α → κ) (acc : List α) (r : α)
    (h : acc.Pairwise (fun a b => k a ≠ k b)) :
    (upsertRow k acc r).Pairwise (fun a b => k a ≠ k b) := by
  unfold upsertRow
  split
  · refine List.pairwise_map.mpr (h.imp ?_)
    intro a b hab
    by_cases ha : k a = k r <;> by_cases hb : k b = k r
    · exact absurd (ha.trans hb.symm) hab
    · simp only [if_pos ha, if_neg hb]
      exact ha ▸ hab
    · simp only [if_neg ha, if_pos hb]
      exact hb ▸ hab
    · simp only [if_neg ha, if_neg hb]
      exact hab
  · rename_i hany
    refine List.pairwise_append.mpr ⟨h, List.pairwise_singleton _ _, ?_⟩
    intro a ha b hb
    have hb' : b = r := by simpa using hb
    subst hb'
    intro hk
    exact hany (List.any_eq_true.mpr ⟨a, ha, by simp [hk]⟩)

theorem pairwise_foldl_upsertRow {α κ : Type} [DecidableEq κ] (k : α → κ) :
    ∀ (rows acc : List α), acc.Pairwise (fun a b => k a ≠ k b) →
      (rows.foldl (upsertRow k) acc).Pairwise (fun a b => k a ≠ k b) := by
  intro rows
  induction rows with
  | nil => intro acc h; exact h
  | cons r rest ih => intro acc h; exact ih _ (pairwise_upsertRow k acc r h)

theorem pairwise_dedupLastWins {α κ : Type} [DecidableEq κ] (k : α → κ) (rows : List α) :
    (dedupLastWins k rows).Pairwise (fun a b => k a ≠ k b) :=
  pairwise_foldl_upsertRow k rows [] List.Pairwise.nil

theorem lastwins_foldl_upsertRow {α κ : Type} [DecidableEq κ] (k : α → κ) :
    ∀ (rows hist acc : List α),
      (∀ x ∈ acc, (hist.filter (fun y => decide (k y = k x))).getLast? = some x) →
      ∀ x ∈ rows.foldl (upsertRow k) acc,
        ((hist ++ rows).filter (fun y => decide (k y = k x))).getLast? = some x := by
  intro rows
  induction rows with
  | nil => intro hist acc hinv x hx; simpa using hinv x hx
  | cons r rest ih =>
    intro hist acc hinv x hx
    have hstep : ∀ x ∈ upsertRow k acc r,
        ((hist ++ [r]).filter (fun y => decide (k y = k x))).getLast? = some x := by
      intro x hx'
      rcases mem_upsertRow k acc r x hx' with rfl | ⟨hxacc, hxk⟩
      · rw [List.filter_append]
        have hfr : List.filter (fun y => decide (k y = k x)) [x] = [x] := by simp
        rw [hfr, List.getLast?_concat]
      · rw [List.filter_append]
        have hfr : List.filter (fun y => decide (k y = k x)) [r] = [] := by
          have : ¬k r = k x := fun h => hxk h.symm
          simp [this]
        rw [hfr, List.append_nil]
        exact hinv x hxacc
    have := ih (hist ++ [r]) (upsertRow k acc r) hstep x hx
    simpa [List.append_assoc] using this

theorem lastwins_dedupLastWins {α κ : Type} [DecidableEq κ] (k : α → κ) (rows : List α) :
    ∀ x ∈ dedupLastWins k rows,
      (rows.filter (fun y => decide (k y = k x))).getLast? = some x := by
  intro x hx
  have := lastwins_foldl_upsertRow k rows [] []
    (by intro x hx; cases hx) x hx
  simpa using this

instance : IsTotal PathRow (fun a b => a.minutes ≤ b.minutes) :=
  ⟨fun _ _ => Int.le_total _ _⟩

instance : IsTrans PathRow (fun a b => a.minutes ≤ b.minutes) :=
  ⟨fun _ _ _ h1 h2 => Int.le_trans h1 h2⟩

instance : IsTotal BusRow (fun a b => a.minutes ≤ b.minutes) :=
  ⟨fun _ _ => Int.le_total _ _⟩

instance : IsTrans BusRow (fun a b => a.minutes ≤ b.minutes) :=
  ⟨fun _ _ _ h1 h2 => Int.le_trans h1 h2⟩

theorem symm_key_ne {α κ : Type} (k : α → κ) :
    Symmetric (fun a b => k a ≠ k b) := fun _ _ h heq => h heq.symm

/-! ### Shape of the ETA group produced by the scraper's pattern -/

theorem digit_not_space {c : Char} (h : isDigitChar c = true) : isPySpace c = false := by
  simp [isDigitChar] at h
  rcases h with ((((((((rfl | rfl) | rfl) | rfl) | rfl) | rfl) | rfl) | rfl) | rfl) | rfl <;>
    decide

theorem digit_upper_fix {c : Char} (h : isDigitChar c = true) : toUpperAscii c = c := by
  simp [isDigitChar] at h
  rcases h with ((((((((rfl | rfl) | rfl) | rfl) | rfl) | rfl) | rfl) | rfl) | rfl) | rfl <;>
    decide

theorem map_eq_self_of_fix {f : Char → Char} {l : List Char} (h : ∀ c ∈ l, f c = c) :
    l.map f = l := by
  induction l with
  | nil => rfl
  | cons c cs ih =>
    simp [h c (List.mem_cons_self c cs), ih fun x hx => h x (List.mem_cons_of_mem c hx)]

theorem pyStrip_eq_self_of_ends {l : List Char}
    (h1 : ∀ c, l.head? = some c → isPySpace c = false)
    (h2 : ∀ c, l.getLast? = some c → isPySpace c = false) : pyStrip l = l := by
  have hfront : l.dropWhile isPySpace = l := by
    cases l with
    | nil => rfl
    | cons c cs => rw [List.dropWhile_cons, h1 c rfl]; simp
  have hback : l.reverse.dropWhile isPySpace = l.reverse := by
    cases hr : l.reverse with
    | nil => rfl
    | cons c cs =>
      have hc : l.getLast? = some c := by rw [← List.head?_reverse, hr]; rfl
      rw [List.dropWhile_cons, h2 c hc]; simp
  unfold pyStrip
  rw [hfront, hback, List.reverse_reverse]

theorem etaMinutes_isSome_of_digits {eta : List Char} (hne : eta ≠ [])
    (hdig : ∀ c ∈ eta, isDigitChar c = true) : (etaMinutes eta).isSome = true := by
  have hstrip : pyStrip eta = eta := by
    refine pyStrip_eq_self_of_ends (fun c hc => ?_) (fun c hc => ?_)
    · cases eta with
      | nil => cases hc
      | cons a l =>
        have ha : a = c := Option.some.inj hc
        exact digit_not_space (hdig c (ha ▸ List.mem_cons_self a l))
    · obtain ⟨l', rfl⟩ := List.getLast?_eq_some_iff.mp hc
      exact digit_not_space (hdig c (List.mem_append_right l' (List.mem_cons_self c [])))
  have hup : pyUpper eta = eta :=
    map_eq_self_of_fix fun c hc => digit_upper_fix (hdig c hc)
  unfold etaMinutes
  rw [hstrip, hup]
  show (if eta = ("DUE").toList ∨ eta.head? = some '<' then some 0
    else parseIntPy eta).isSome = true
  split
  · rfl
  · simp [parseIntPy, hne, List.all_eq_true.mpr hdig]

theorem etaAt_shape {r eta r3 : List Char} (h : etaAt r = some (eta, r3)) :
    (etaMinutes eta).isSome = true := by
  cases r with
  | nil => simp [etaAt] at h
  | cons c rest =>
    simp only [etaAt] at h
    by_cases hc : c = '<'
    · rw [if_pos hc] at h
      split at h
      · have heq := Option.some.inj h
        rw [Prod.mk.injEq] at heq
        obtain ⟨rfl, rfl⟩ := heq
        have hstrip : pyStrip ('<' :: (rest.takeWhile isPySpace ++ ['1'])) =
            '<' :: (rest.takeWhile isPySpace ++ ['1']) := by
          refine pyStrip_eq_self_of_ends (fun d hd => ?_) (fun d hd => ?_)
          · have : '<' = d := Option.some.inj hd
            rw [← this]; rfl
          · have hconc : ('<' :: (rest.takeWhile isPySpace ++ ['1'])) =
                ('<' :: rest.takeWhile isPySpace) ++ ['1'] := by simp
            rw [hconc, List.getLast?_concat] at hd
            have : '1' = d := Option.some.inj hd
            rw [← this]; rfl
        unfold etaMinutes
        rw [hstrip]
        have hhead : (pyUpper ('<' :: (rest.takeWhile isPySpace ++ ['1']))).head? =
            some '<' := by simp [pyUpper, toUpperAscii]
        rw [if_pos (Or.inr hhead)]
        rfl
      · cases h
    · rw [if_neg hc] at h
      by_cases hd : c = 'd' ∨ c = 'D'
      · rw [if_pos hd] at h
        split at h
        · rename_i u e r4
          split at h
          · rename_i hue
            have heq := Option.some.inj h
            rw [Prod.mk.injEq] at heq
            obtain ⟨rfl, rfl⟩ := heq
            rcases hd with rfl | rfl <;> rcases hue.1 with rfl | rfl <;>
              rcases hue.2 with rfl | rfl <;> decide
          · cases h
        · cases h
      · rw [if_neg hd] at h
        by_cases hdig : isDigitChar c = true
        · rw [if_pos hdig] at h
          have heq := Option.some.inj h
          rw [Prod.mk.injEq] at heq
          obtain ⟨rfl, rfl⟩ := heq
          refine etaMinutes_isSome_of_digits ?_ fun d hd => List.mem_takeWhile_imp hd
          simp [List.takeWhile_cons, hdig]
        · rw [if_neg hdig] at h
          cases h

theorem tryTail_shape {afterTo eta rem : List Char} (h : tryTail afterTo = some (eta, rem)) :
    (etaMinutes eta).isSome = true := by
  unfold tryTail at h
  split at h
  · simp at h
  · split at h
    · rename_i eta' r3 heta
      have heq := Option.some.inj h
      rw [Prod.mk.injEq] at heq
      obtain ⟨rfl, rfl⟩ := heq
      exact etaAt_shape heta
    · simp at h

theorem tryToFrom_shape {afterWs toG eta rem : List Char} :
    ∀ n toLen : Nat, tryToFrom afterWs n toLen = some (toG, eta, rem) →
      (etaMinutes eta).isSome = true := by
  intro n
  induction n with
  | zero => intro toLen h; simp [tryToFrom] at h
  | succ n ih =>
    intro toLen h
    rw [tryToFrom] at h
    split at h
    · rename_i eta' rem' htail
      have heq := Option.some.inj h
      rw [Prod.mk.injEq] at heq
      obtain ⟨rfl, heq2⟩ := heq
      rw [Prod.mk.injEq] at heq2
      obtain ⟨rfl, rfl⟩ := heq2
      exact tryTail_shape htail
    · exact ih _ h

theorem tryWs1_shape {s toG eta rem : List Char} :
    ∀ a : Nat, tryWs1 s a = some (toG, eta, rem) → (etaMinutes eta).isSome = true := by
  intro a
  induction a with
  | zero => intro h; simp [tryWs1] at h
  | succ a ih =>
    intro h
    rw [tryWs1] at h
    split at h
    · rename_i r htf
      have heq := Option.some.inj h
      subst heq
      exact tryToFrom_shape _ _ htf
    · exact ih h

theorem matchAt_shape {l route toG eta rem : List Char}
    (h : matchAt l = some (route, toG, eta, rem)) : (etaMinutes eta).isSome = true := by
  unfold matchAt at h
  split at h
  · split at h
    · simp at h
    · split at h
      · simp at h
      · split at h
        · split at h
          · split at h
            · rename_i toG' eta' rem' hws
              have heq := Option.some.inj h
              rw [Prod.mk.injEq] at heq
              obtain ⟨-, heq2⟩ := heq
              rw [Prod.mk.injEq] at heq2
              obtain ⟨rfl, heq3⟩ := heq2
              rw [Prod.mk.injEq] at heq3
              obtain ⟨rfl, rfl⟩ := heq3
              exact tryWs1_shape _ hws
            · simp at h
          · simp at h
        · simp at h
  · simp at h

theorem findMatchesFuel_shape :
    ∀ (fuel : Nat) (l : List Char) (m : List Char × List Char × List Char),
      m ∈ findMatchesFuel fuel l → (etaMinutes m.2.2).isSome = true := by
  intro fuel
  induction fuel with
  | zero => intro l m h; simp [findMatchesFuel] at h
  | succ fuel ih =>
    intro l m h
    cases l with
    | nil => simp [findMatchesFuel] at h
    | cons c rest =>
      rw [findMatchesFuel] at h
      split at h
      · rename_i r t e rem hm
        rcases List.mem_cons.mp h with rfl | h'
        · exact matchAt_shape hm
        · exact ih _ _ h'
      · exact ih _ _ h

theorem findMatches_shape {l : List Char} {m : List Char × List Char × List Char}
    (h : m ∈ findMatches l) : (etaMinutes m.2.2).isSome = true :=
  findMatchesFuel_shape _ _ _ h

/-! ### Every match consumes at least one character, so the length fuel of
`findMatches` never runs out and the scan is exactly the `finditer` loop -/

theorem length_dropWhile_le (p : Char → Bool) (l : List Char) :
    (l.dropWhile p).length ≤ l.length := by
  induction l with
  | nil => simp
  | cons c cs ih =>
    rw [List.dropWhile_cons]
    split
    · exact Nat.le_trans ih (by simp)
    · exact Nat.le_refl _

theorem etaAt_rem_lt {r eta r3 : List Char} (h : etaAt r = some (eta, r3)) :
    r3.length < r.length := by
  cases r with
  | nil => simp [etaAt] at h
  | cons c rest =>
    simp only [etaAt] at h
    by_cases hc : c = '<'
    · rw [if_pos hc] at h
      split at h
      · rename_i r4 heq
        have heqi := Option.some.inj h
        rw [Prod.mk.injEq] at heqi
        obtain ⟨-, rfl⟩ := heqi
        have hd : (rest.dropWhile isPySpace).length ≤ rest.length := length_dropWhile_le _ _
        rw [heq] at hd
        simp at hd ⊢
        omega
      · simp at h
    · rw [if_neg hc] at h
      by_cases hd : c = 'd' ∨ c = 'D'
      · rw [if_pos hd] at h
        split at h
        · rename_i u e r4
          split at h
          · have heqi := Option.some.inj h
            rw [Prod.mk.injEq] at heqi
            obtain ⟨-, rfl⟩ := heqi
            simp
            omega
          · simp at h
        · simp at h
      · rw [if_neg hd] at h
        by_cases hdig : isDigitChar c = true
        · rw [if_pos hdig] at h
          have heqi := Option.some.inj h
          rw [Prod.mk.injEq] at heqi
          obtain ⟨-, rfl⟩ := heqi
          rw [List.dropWhile_cons, if_pos hdig]
          have := length_dropWhile_le isDigitChar rest
          simp
          omega
        · rw [if_neg hdig] at h
          simp at h

theorem finishTrailing_le (r : List Char) : (finishTrailing r).length ≤ r.length := by
  have h4 := length_dropWhile_le isPySpace r
  unfold finishTrailing
  split
  · rename_i m i n rest heq
    split
    · rw [heq] at h4
      simp at h4
      omega
    · rw [heq] at h4
      exact h4
  · exact h4

theorem tryTail_rem_lt {afterTo eta rem : List Char} (h : tryTail afterTo = some (eta, rem)) :
    rem.length < afterTo.length := by
  unfold tryTail at h
  split at h
  · simp at h
  · rename_i hws
    split at h
    · rename_i eta' r3 heta
      have heq := Option.some.inj h
      rw [Prod.mk.injEq] at heq
      obtain ⟨-, rfl⟩ := heq
      have h1 : r3.length < (afterTo.dropWhile isPySpace).length := etaAt_rem_lt heta
      have h2 : (afterTo.dropWhile isPySpace).length < afterTo.length := by
        cases afterTo with
        | nil => simp at hws
        | cons c cs =>
          rw [List.takeWhile_cons] at hws
          by_cases hp : isPySpace c = true
          · rw [List.dropWhile_cons, if_pos hp]
            have := length_dropWhile_le isPySpace cs
            simp
            omega
          · rw [if_neg hp] at hws
            simp at hws
      have h3 := finishTrailing_le r3
      omega
    · simp at h

theorem tryToFrom_rem_lt {afterWs toG eta rem : List Char} :
    ∀ n toLen : Nat, tryToFrom afterWs n toLen = some (toG, eta, rem) →
      rem.length < afterWs.length := by
  intro n
  induction n with
  | zero => intro toLen h; simp [tryToFrom] at h
  | succ n ih =>
    intro toLen h
    rw [tryToFrom] at h
    split at h
    · rename_i eta' rem' htail
      have heq := Option.some.inj h
      rw [Prod.mk.injEq] at heq
      obtain ⟨-, heq2⟩ := heq
      rw [Prod.mk.injEq] at heq2
      obtain ⟨-, rfl⟩ := heq2
      have h1 := tryTail_rem_lt htail
      have h2 : (afterWs.drop toLen).length = afterWs.length - toLen := List.length_drop _ _
      omega
    · exact ih _ h

theorem tryWs1_rem_lt {s toG eta rem : List Char} :
    ∀ a : Nat, tryWs1 s a = some (toG, eta, rem) → rem.length < s.length := by
  intro a
  induction a with
  | zero => intro h; simp [tryWs1] at h
  | succ a ih =>
    intro h
    rw [tryWs1] at h
    split at h
    · rename_i r htf
      have heq := Option.some.inj h
      subst heq
      have h1 := tryToFrom_rem_lt _ _ htf
      have h2 : (s.drop (a + 1)).length = s.length - (a + 1) := List.length_drop _ _
      omega
    · exact ih h

theorem matchAt_rem_lt {l route toG eta rem : List Char}
    (h : matchAt l = some (route, toG, eta, rem)) : rem.length < l.length := by
  unfold matchAt at h
  split at h
  · rename_i l1
    split at h
    · simp at h
    · split at h
      · simp at h
      · split at h
        · rename_i t o l4 heq
          split at h
          · split at h
            · rename_i toG' eta' rem' hws
              have heqi := Option.some.inj h
              rw [Prod.mk.injEq] at heqi
              obtain ⟨-, heq2⟩ := heqi
              rw [Prod.mk.injEq] at heq2
              obtain ⟨-, heq3⟩ := heq2
              rw [Prod.mk.injEq] at heq3
              obtain ⟨-, rfl⟩ := heq3
              have h1 := tryWs1_rem_lt _ hws
              have h2 : l4.length + 2 =
                  ((l1.dropWhile isDigitChar).dropWhile isPySpace).length := by
                rw [heq]; simp
              have h3 := length_dropWhile_le isPySpace (l1.dropWhile isDigitChar)
              have h4 := length_dropWhile_le isDigitChar l1
              simp
              omega
            · simp at h
          · simp at h
        · simp at h
  · simp at h

theorem findMatchesFuel_congr :
    ∀ (f1 f2 : Nat) (l : List Char), l.length ≤ f1 → l.length ≤ f2 →
      findMatchesFuel f1 l = findMatchesFuel f2 l := by
  intro f1
  induction f1 with
  | zero =>
    intro f2 l h1 _
    have hl : l = [] := List.length_eq_zero.mp (Nat.le_zero.mp h1)
    subst hl
    cases f2 <;> rfl
  | succ f1 ih =>
    intro f2 l h1 h2
    cases l with
    | nil => cases f2 <;> rfl
    | cons c rest =>
      cases f2 with
      | zero => simp at h2
      | succ f2 =>
        rw [findMatchesFuel, findMatchesFuel]
        cases hm : matchAt (c :: rest) with
        | some quad =>
          obtain ⟨r, t, e, rem⟩ := quad
          have hlt := matchAt_rem_lt hm
          simp only [hm]
          rw [ih f2 rem (by simp at h1 hlt ⊢; omega) (by simp at h2 hlt ⊢; omega)]
        | none =>
          simp only [hm]
          exact ih f2 rest (by simp at h1 ⊢; omega) (by simp at h2 ⊢; omega)

theorem findMatchesFuel_eq_findMatches {l : List Char} {fuel : Nat} (h : l.length ≤ fuel) :
    findMatchesFuel fuel l = findMatches l :=
  findMatchesFuel_congr fuel l.length l h (Nat.le_refl _)

/-! ### Window bounds and membership chains -/

theorem rowOfMsg_bounds {window now : Int} {dest : Dest} {msg : Msg} {r : PathRow}
    (h : rowOfMsg window now dest msg = some r) : 0 ≤ r.minutes ∧ r.minutes ≤ window := by
  unfold rowOfMsg at h
  split at h
  · simp at h
  · rename_i m hm
    split at h
    · rename_i hcond
      have := Option.some.inj h
      subst this
      simpa using hcond
    · simp at h

theorem busRowOfMatch_bounds {window : Int} {mt : List Char × List Char × List Char} {r : BusRow}
    (h : busRowOfMatch window mt = some r) : 0 ≤ r.minutes ∧ r.minutes ≤ window := by
  unfold busRowOfMatch at h
  split at h
  · simp at h
  · rename_i m hm
    split at h
    · rename_i hcond
      have := Option.some.inj h
      subst this
      simpa using hcond
    · simp at h

theorem mem_parse_path_realtime {window now : Int} {data : RidePath} {r : PathRow}
    (h : r ∈ parse_path_realtime window now data) : r ∈ pathRowsRaw window now data := by
  unfold parse_path_realtime at h
  exact mem_dedupLastWins _ _ _ ((List.mem_insertionSort _).mp h)

theorem mem_parse_njt_mybus {window : Int} {text : String} {r : BusRow}
    (h : r ∈ parse_njt_mybus window text) : r ∈ busRowsRaw window text := by
  unfold parse_njt_mybus at h
  exact mem_dedupLastWins _ _ _ ((List.mem_insertionSort _).mp h)

theorem pathRowsRaw_bounds {window now : Int} {data : RidePath} {r : PathRow}
    (h : r ∈ pathRowsRaw window now data) : 0 ≤ r.minutes ∧ r.minutes ≤ window := by
  unfold pathRowsRaw at h
  obtain ⟨st, -, h⟩ := List.mem_flatMap.mp h
  obtain ⟨dest, -, h⟩ := List.mem_flatMap.mp h
  obtain ⟨msg, -, hmsg⟩ := List.mem_filterMap.mp h
  exact rowOfMsg_bounds hmsg

theorem busRowsRaw_bounds {window : Int} {text : String} {r : BusRow}
    (h : r ∈ busRowsRaw window text) : 0 ≤ r.minutes ∧ r.minutes ≤ window := by
  unfold busRowsRaw at h
  obtain ⟨mt, -, hmt⟩ := List.mem_filterMap.mp h
  exact busRowOfMatch_bounds hmt

/-! ### The claims -/

/-- C1: a JSON document with exactly one station of code `HOB`, one
destination labeled `33rd Street`, and one message whose `arrivalTime` is an
ISO, Z-suffixed timestamp exactly five minutes after the current instant
(and no other ETA field) normalizes to exactly one row with line `PATH`,
destination `33rd Street` and five minutes (the sub-minute truncation of the
claim is exercised exactly at the five-minute point; the embedding carries
the source's extra `raw` field alongside the three claimed ones). -/
theorem c1_round_trip :
    parse_path_realtime 120 0 c1Doc =
      [{ line := "PATH", toDest := "33rd Street", minutes := 5, raw := c1Msg }] := by
  decide

/-- C2 (counterexample): the claim quantifies over any input text containing
the fragment, and that fails: prefixing the six characters of the partial
block `#1 To ` turns the fragment into the interior of one larger match
(route `1`, destination `#126 To`, ETA token `126`), whose 126 minutes fall
outside the default 120-minute window, so the normalizer returns no row at
all even though the text contains the fragment verbatim. -/
theorem c2_extraction_counterexample :
    parse_njt_mybus 120 ("#1 To " ++ c2TextNY) = [] ∧
    ({ route := "126", toDest := "126 NEW YORK", minutes := 13 } : BusRow) ∉
      parse_njt_mybus 120 ("#1 To " ++ c2TextNY) := by
  constructor
  · decide
  · decide

/-- C2 (amended): when the fragments are matched as written — standalone or
as newline-separated blocks, with no earlier overlapping match consuming
them — `#126 To 126 NEW YORK 13 MIN` yields the row (126, 126 NEW YORK, 13),
`#22 To 22 HOBOKEN DUE` yields minutes 0, and
`#126 To 126 HOBOKEN-PATH < 1 MIN` yields minutes 0 (an ETA token of DUE or
beginning with `<` maps to 0). -/
theorem c2_extraction_amended :
    parse_njt_mybus 120 c2TextNY =
      [{ route := "126", toDest := "126 NEW YORK", minutes := 13 }] ∧
    parse_njt_mybus 120 c2TextDue =
      [{ route := "22", toDest := "22 HOBOKEN", minutes := 0 }] ∧
    parse_njt_mybus 120 c2TextLt =
      [{ route := "126", toDest := "126 HOBOKEN-PATH", minutes := 0 }] ∧
    parse_njt_mybus 120 (c2TextNY ++ "\n" ++ c2TextDue ++ "\n" ++ c2TextLt) =
      [{ route := "22", toDest := "22 HOBOKEN", minutes := 0 },
       { route := "126", toDest := "126 HOBOKEN-PATH", minutes := 0 },
       { route := "126", toDest := "126 NEW YORK", minutes := 13 }] := by
  refine ⟨by decide, by decide, by decide, by decide⟩

/-- C3: the PATH normalizer equals, for every window, instant and document,
the pipeline transcribed from the specification's words: minutes prefer the
`arrivalTime` timestamp parsed as an ISO-8601 instant tolerating a trailing
literal `Z` as UTC offset, subtracted from the current instant, floored to
whole minutes and clamped at zero; an absent or unparseable timestamp falls
back to the integer before `min` in `arrivalTimeMessage`; a message yielding
neither is dropped without affecting the others (the spec-side pipeline is
`pathNormalizeSpec`; the two sides differ exactly in replace-all-Z versus
trailing-Z, proved extensionally equal through the parser). -/
theorem c3_minutes_priority (window now : Int) (data : RidePath) :
    parse_path_realtime window now data = pathNormalizeSpec window now data := by
  unfold parse_path_realtime pathNormalizeSpec
  rw [pathRowsRaw_eq_spec]

/-- C4: both normalizers apply the window as an inclusive upper bound — every
returned row satisfies `0 ≤ minutes ≤ window`, a computed row is kept exactly
when its minutes lie in the window, and with window 30 an input computing 45
minutes produces no row. -/
theorem c4_window_inclusive :
    (∀ (window now : Int) (data : RidePath) (r : PathRow),
        r ∈ parse_path_realtime window now data → 0 ≤ r.minutes ∧ r.minutes ≤ window) ∧
    (∀ (window : Int) (text : String) (r : BusRow),
        r ∈ parse_njt_mybus window text → 0 ≤ r.minutes ∧ r.minutes ≤ window) ∧
    (∀ (window now : Int) (dest : Dest) (msg : Msg) (m : Int), msgMinutes now msg = some m →
        ((rowOfMsg window now dest msg).isSome = true ↔ 0 ≤ m ∧ m ≤ window)) ∧
    (∀ (window : Int) (mt : List Char × List Char × List Char) (m : Int),
        etaMinutes mt.2.2 = some m →
        ((busRowOfMatch window mt).isSome = true ↔ 0 ≤ m ∧ m ≤ window)) ∧
    parse_njt_mybus 30 c4BusText45 = [] ∧
    parse_path_realtime 30 0 c4PathDoc45 = [] := by
  refine ⟨?_, ?_, ?_, ?_, by decide, by decide⟩
  · intro window now data r h
    exact pathRowsRaw_bounds (mem_parse_path_realtime h)
  · intro window text r h
    exact busRowsRaw_bounds (mem_parse_njt_mybus h)
  · intro window now dest msg m hm
    unfold rowOfMsg
    rw [hm]
    by_cases hc : 0 ≤ m ∧ m ≤ window
    · simp [hc]
    · simp [hc]
  · intro window mt m hm
    unfold busRowOfMatch
    rw [hm]
    by_cases hc : 0 ≤ m ∧ m ≤ window
    · simp [hc]
    · simp [hc]

/-- C4 (witness): the bounds instantiated at a page text and a document each
computing an in-window row, and the keep-iff instantiated at the witness
message. -/
theorem c4_window_inclusive_witness :
    (0 ≤ ({ route := "5", toDest := "X", minutes := 7 } : BusRow).minutes ∧
      ({ route := "5", toDest := "X", minutes := 7 } : BusRow).minutes ≤ 120) ∧
    (0 ≤ ({ line := "PATH", toDest := "33rd Street", minutes := 7,
            raw := c4WitMsg } : PathRow).minutes ∧
      ({ line := "PATH", toDest := "33rd Street", minutes := 7,
         raw := c4WitMsg } : PathRow).minutes ≤ 120) ∧
    ((rowOfMsg 120 0 { label := some ("33rd Street"), messages := [c4WitMsg] }
        c4WitMsg).isSome = true ↔ 0 ≤ (7 : Int) ∧ (7 : Int) ≤ 120) := by
  refine ⟨?_, ?_, ?_⟩
  · exact c4_window_inclusive.2.1 120 c4WitText _ (by decide)
  · exact c4_window_inclusive.1 120 0 c4WitDoc _ (by decide)
  · exact c4_window_inclusive.2.2.1 120 0 _ c4WitMsg 7 (by decide)

/-- C5: in every list either normalizer returns, no two rows share the
uniqueness key — `(line, to, minutes)` for PATH, `(route, to, minutes)` for
the bus — and a returned row is exactly the last row of the pre-dedup input
order bearing its key (last occurrence wins). -/
theorem c5_dedup_last_wins :
    (∀ (window now : Int) (data : RidePath),
        (parse_path_realtime window now data).Pairwise (fun a b => pathKey a ≠ pathKey b)) ∧
    (∀ (window now : Int) (data : RidePath) (r : PathRow),
        r ∈ parse_path_realtime window now data →
        ((pathRowsRaw window now data).filter
          (fun x => decide (pathKey x = pathKey r))).getLast? = some r) ∧
    (∀ (window : Int) (text : String),
        (parse_njt_mybus window text).Pairwise (fun a b => busKey a ≠ busKey b)) ∧
    (∀ (window : Int) (text : String) (r : BusRow),
        r ∈ parse_njt_mybus window text →
        ((busRowsRaw window text).filter
          (fun x => decide (busKey x = busKey r))).getLast? = some r) := by
  refine ⟨?_, ?_, ?_, ?_⟩
  · intro window now data
    unfold parse_path_realtime
    exact (List.Perm.pairwise_iff (fun h heq => h heq.symm)
      (List.perm_insertionSort _ _)).mpr (pairwise_dedupLastWins _ _)
  · intro window now data r h
    unfold parse_path_realtime at h
    exact lastwins_dedupLastWins _ _ r ((List.mem_insertionSort _).mp h)
  · intro window text
    unfold parse_njt_mybus
    exact (List.Perm.pairwise_iff (fun h heq => h heq.symm)
      (List.perm_insertionSort _ _)).mpr (pairwise_dedupLastWins _ _)
  · intro window text r h
    unfold parse_njt_mybus at h
    exact lastwins_dedupLastWins _ _ r ((List.mem_insertionSort _).mp h)

/-- C5 (witness): two colliding PATH messages (equal key, different raw
payloads) keep the later one, and a page repeating a block twice keeps its
single collapsed row. -/
theorem c5_dedup_last_wins_witness :
    ((pathRowsRaw 120 0 c5Doc).filter
      (fun x => decide (pathKey x = pathKey c5Row))).getLast? = some c5Row ∧
    ((busRowsRaw 120 c5BusText).filter
      (fun x => decide (busKey x = busKey c5BusRow))).getLast? = some c5BusRow := by
  constructor
  · exact c5_dedup_last_wins.2.1 120 0 c5Doc c5Row (by decide)
  · exact c5_dedup_last_wins.2.2.2 120 c5BusText c5BusRow (by decide)

/-- C6: the minutes field is non-decreasing across consecutive rows of every
list either normalizer returns. -/
theorem c6_sorted_ascending (window now : Int) (data : RidePath) (text : String) :
    List.Chain' (fun a b => a ≤ b) ((parse_path_realtime window now data).map PathRow.minutes) ∧
    List.Chain' (fun a b => a ≤ b) ((parse_njt_mybus window text).map BusRow.minutes) := by
  constructor
  · have hs := List.sorted_insertionSort (fun a b : PathRow => a.minutes ≤ b.minutes)
      (dedupLastWins pathKey (pathRowsRaw window now data))
    have hp : ((parse_path_realtime window now data).map PathRow.minutes).Pairwise
        (fun a b => a ≤ b) := by
      unfold parse_path_realtime
      rw [List.pairwise_map]
      exact hs
    exact hp.chain'
  · have hs := List.sorted_insertionSort (fun a b : BusRow => a.minutes ≤ b.minutes)
      (dedupLastWins busKey (busRowsRaw window text))
    have hp : ((parse_njt_mybus window text).map BusRow.minutes).Pairwise
        (fun a b => a ≤ b) := by
      unfold parse_njt_mybus
      rw [List.pairwise_map]
      exact hs
    exact hp.chain'

/-- C7: a fetched text in which the pattern finds no match normalizes to the
empty list rather than an error, and the pipeline keeps that outcome apart
from a transport failure, which propagates as the fetch's own error. -/
theorem c7_empty_vs_failure (window : Int) (text : String) (e : String)
    (h : findMatches text.toList = []) :
    parse_njt_mybus window text = [] ∧
    busPipeline window (Except.ok text) = Except.ok ([] : List BusRow) ∧
    busPipeline window (Except.error e) = Except.error e ∧
    Except.ok ([] : List BusRow) ≠ (Except.error e : Except String (List BusRow)) := by
  have hrows : busRowsRaw window text = [] := by
    unfold busRowsRaw
    rw [h]
    rfl
  have hparse : parse_njt_mybus window text = [] := by
    unfold parse_njt_mybus
    rw [hrows]
    rfl
  exact ⟨hparse, by simp [busPipeline, Except.map, hparse], by simp [busPipeline, Except.map], by simp⟩

/-- C7 (witness): the distinction at a concrete matchless page and a concrete
transport error. -/
theorem c7_empty_vs_failure_witness :
    parse_njt_mybus 120 c7Text = [] ∧
    busPipeline 120 (Except.ok c7Text) = Except.ok ([] : List BusRow) ∧
    busPipeline 120 (Except.error ("Connection timed out")) =
      Except.error ("Connection timed out") ∧
    Except.ok ([] : List BusRow) ≠
      (Except.error ("Connection timed out") : Except String (List BusRow)) :=
  c7_empty_vs_failure 120 c7Text ("Connection timed out") (by decide)

/-- C8: failures are isolated per panel — an error in one panel's
fetch-normalize pipeline renders as that panel's failure view, and each
panel's view is a function of its own fetch alone, so the other two panels
render exactly as they would have. -/
theorem c8_panel_isolation (window now : Int) (pf pf' : Except String RidePath)
    (b1 b1' b2 b2' : Except String String) (e : String) :
    ((runCycle window now (Except.error e) b1 b2).1 = PanelView.failure e ∧
      (runCycle window now (Except.error e) b1 b2).2 =
        (runCycle window now pf b1 b2).2) ∧
    ((runCycle window now pf (Except.error e) b2).2.1 = PanelView.failure e ∧
      (runCycle window now pf (Except.error e) b2).1 = (runCycle window now pf b1 b2).1 ∧
      (runCycle window now pf (Except.error e) b2).2.2 =
        (runCycle window now pf b1 b2).2.2) ∧
    ((runCycle window now pf b1 (Except.error e)).2.2 = PanelView.failure e ∧
      (runCycle window now pf b1 (Except.error e)).1 = (runCycle window now pf b1 b2).1 ∧
      (runCycle window now pf b1 (Except.error e)).2.1 =
        (runCycle window now pf b1 b2).2.1) ∧
    (runCycle window now pf b1 b2).1 = (runCycle window now pf b1' b2').1 ∧
    (runCycle window now pf b1 b2).2.1 = (runCycle window now pf' b1 b2').2.1 ∧
    (runCycle window now pf b1 b2).2.2 = (runCycle window now pf' b1' b2).2.2 :=
  ⟨⟨rfl, rfl⟩, ⟨rfl, rfl, rfl⟩, ⟨rfl, rfl, rfl⟩, rfl, rfl, rfl⟩

/-- C9: the integer conversion of the ETA token never fails — every match the
pattern produces carries an ETA group that is a less-than token, a
case-insensitive DUE, or a nonempty digit run, so `etaMinutes` is defined on
it, the `ValueError`-skip branch of the loop is unreachable, and the
normalizer is total on its input text. -/
theorem c9_eta_conversion_total (text : String) (mt : List Char × List Char × List Char)
    (h : mt ∈ findMatches text.toList) : (etaMinutes mt.2.2).isSome = true :=
  findMatches_shape h

/-- C9 (witness): the conversion succeeds on the match of a concrete page. -/
theorem c9_eta_conversion_total_witness :
    (etaMinutes ((("80").toList, ("LINCOLN").toList, ("DUE").toList) :
      List Char × List Char × List Char).2.2).isSome = true :=
  c9_eta_conversion_total c9Text _ (by decide)

/-- C10: the field resolution of the PATH normalizer uses Python truthiness,
so an empty-string `headSign` behaves exactly like an absent one — falling
through to the destination label and then to the literal `PATH` — and an
empty-string `lineName` falls through to the `line` field and then to
`PATH`, for every message; the projected row destination is unchanged. -/
theorem c10_empty_string_falsy (window now : Int) (msg : Msg) (dest : Dest) :
    resolveHeadsign { msg with headSign := some ("") } dest =
      resolveHeadsign { msg with headSign := none } dest ∧
    resolveLine { msg with lineName := some ("") } =
      resolveLine { msg with lineName := none } ∧
    resolveHeadsign { msg with headSign := some ("") } { dest with label := none } = "PATH" ∧
    resolveHeadsign { msg with headSign := some ("") } { dest with label := some ("") } = "PATH" ∧
    resolveLine { msg with lineName := some (""), line := none } = "PATH" ∧
    resolveLine { msg with lineName := some (""), line := some ("") } = "PATH" ∧
    ((rowOfMsg window now dest { msg with headSign := some ("") }).map PathRow.toDest) =
      ((rowOfMsg window now dest { msg with headSign := none }).map PathRow.toDest) := by
  refine ⟨?_, ?_, ?_, ?_, ?_, ?_, ?_⟩
  · simp [resolveHeadsign, firstTruthy, truthyStr]
  · simp [resolveLine, firstTruthy, truthyStr]
  · simp [resolveHeadsign, firstTruthy, truthyStr]
  · simp [resolveHeadsign, firstTruthy, truthyStr]
  · simp [resolveLine, firstTruthy, truthyStr]
  · simp [resolveLine, firstTruthy, truthyStr]
  · have hmin : ∀ hs, msgMinutes now { msg with headSign := hs } = msgMinutes now msg :=
      fun hs => rfl
    unfold rowOfMsg
    rw [hmin (some ("")), hmin none]
    cases msgMinutes now msg with
    | none => rfl
    | some m =>
      by_cases hc : 0 ≤ m ∧ m ≤ window
      · simp [hc, resolveHeadsign, resolveLine, firstTruthy, truthyStr]
      · simp [hc]


/-! ### Evaluation checks of the embedding

The following anonymous checks evaluate the embedded parser and matcher on
concrete inputs whose expected values were taken from the reference
behaviour of `datetime.fromisoformat` and `re.finditer` on the source's
pattern, including the whitespace-backtracking and overlapping-match cases.
-/

example : pyFromIso (("1970-01-01T00:05:00+00:00").toList) = some 300 := by decide

example : pyFromIso (replaceZChars (("1970-01-01T00:05:00Z").toList)) = some 300 := by decide

example : pyFromIso (("2026-10-12T15:30:00-04:00").toList) =
    some ((20738 * 86400 : Int) + 15 * 3600 + 30 * 60 + 4 * 3600) := by decide

example :
    parse_path_realtime 120 0
      { results := [{ consideredStation := some ("HOB"),
                      destinations := [{ label := some ("33rd Street"),
                                         messages := [{ arrivalTime := some ("1970-01-01T00:05:00Z"),
                                                        arrivalTimeMessage := none,
                                                        headSign := none, lineName := none,
                                                        line := none }] }] }] } =
      [{ line := "PATH", toDest := "33rd Street", minutes := 5,
         raw := { arrivalTime := some ("1970-01-01T00:05:00Z"), arrivalTimeMessage := none,
                  headSign := none, lineName := none, line := none } }] := by decide

example :
    parse_njt_mybus 120 ("#126 To 126 NEW YORK 13 MIN") =
      [{ route := "126", toDest := "126 NEW YORK", minutes := 13 }] := by decide

example :
    parse_njt_mybus 120 ("#22 To 22 HOBOKEN DUE") =
      [{ route := "22", toDest := "22 HOBOKEN", minutes := 0 }] := by decide

example :
    parse_njt_mybus 120 ("#126 To 126 HOBOKEN-PATH < 1 MIN") =
      [{ route := "126", toDest := "126 HOBOKEN-PATH", minutes := 0 }] := by decide

example :
    parse_njt_mybus 120 ("#1 To " ++ "#126 To 126 NEW YORK 13 MIN") = [] := by decide

example :
    findMatches (("#1 To   5 MIN").toList) = [(("1").toList, (" ").toList, ("5").toList)] := by
  decide

example :
    findMatches (("#12  to  X due stuff #3 To Y <  1").toList) =
      [(("12").toList, ("X").toList, ("due").toList),
       (("3").toList, ("Y").toList, ("<  1").toList)] := by decide

example :
    findMatches (("#5 To \nZZ 9 MIN").toList) =
      [(("5").toList, ("ZZ").toList, ("9").toList)] := by decide

example :
    findMatches (("#10 To x 5 min#11 To y 6 MIN").toList) =
      [(("10").toList, ("x").toList, ("5").toList),
       (("11").toList, ("y").toList, ("6").toList)] := by decide

example :
    findMatches (("#8 To B 12MIN extra #8 To B 12 MIN").toList) =
      [(("8").toList, ("B").toList, ("12").toList),
       (("8").toList, ("B").toList, ("12").toList)] := by decide

example :
    findMatches (("#1 To #126 To 126 NEW YORK 13 MIN").toList) =
      [(("1").toList, ("#126 To").toList, ("126").toList)] := by decide

end Hoboken
